import Mathlib

/-
Verification of the synchronization engine of backfire.js (Backbone bindings
for Firebase).  The JavaScript source is shallowly embedded: attribute maps
become association lists from string keys to JSON-like scalar values, the
remote store becomes a list of emitted write operations, and the Backbone
event machinery becomes explicit lists of notifications.  LocalModel and
LocalCollection (Backbone) are external collaborators; only the behavior the
engine relies on (attribute get/set/unset, change events, membership keyed by
identifier) is modeled, following the external-interface contract.
Attribute values are modeled as JS primitives (null, booleans, integers,
strings); object-valued attributes, which JS compares by reference, are
outside this embedding and not needed by any claim.
-/

namespace Backfire

/-- JSON-like scalar value held in an attribute map.  `vNull` is JS `null`;
an absent key plays the role of JS `undefined`. -/
inductive Val where
  | vNull
  | vBool (b : Bool)
  | vNum (n : Int)
  | vStr (s : String)
  deriving Repr, DecidableEq

/-- JS `ToNumber` on a string, restricted to integer results: the empty or
all-whitespace string converts to 0, an optionally signed digit string to its
value, anything else to NaN (represented as `none`). -/
def strToIntJS (s : String) : Option Int :=
  let t := s.trim
  if t.isEmpty then some 0
  else
    let ds := match t.toList with
      | '-' :: rest => some (true, rest)
      | '+' :: rest => some (false, rest)
      | cs => some (false, cs)
    match ds with
    | some (neg, cs) =>
      if !cs.isEmpty && cs.all Char.isDigit then
        let n : Nat := cs.foldl (fun a c => a * 10 + (c.toNat - '0'.toNat)) 0
        some (if neg then -(n : Int) else (n : Int))
      else none
    | none => none

/-- JS `ToNumber` of a primitive (integer fragment); `none` is NaN. -/
def toNumJS : Val → Option Int
  | Val.vNull => some 0
  | Val.vBool b => some (if b then 1 else 0)
  | Val.vNum n => some n
  | Val.vStr s => strToIntJS s

/-- JS loose equality `==` between two primitive values.  `null` equals only
`null` (and `undefined`, handled one level up); same-type comparisons are
structural; mixed booleans/numbers/strings are compared after numeric
coercion, with NaN unequal to everything. -/
def jsEqVal : Val → Val → Bool
  | Val.vNull, Val.vNull => true
  | Val.vNum a, Val.vNum b => a = b
  | Val.vStr a, Val.vStr b => a = b
  | Val.vBool a, Val.vBool b => a = b
  | Val.vNull, _ => false
  | _, Val.vNull => false
  | a, b =>
    match toNumJS a, toNumJS b with
    | some x, some y => x = y
    | _, _ => false

/-- JS loose equality `==` where `none` stands for `undefined` (absent key):
`undefined` equals only `undefined` and `null`. -/
def jsEq : Option Val → Option Val → Bool
  | none, none => true
  | none, some v => v = Val.vNull
  | some v, none => v = Val.vNull
  | some a, some b => jsEqVal a b

theorem jsEqVal_refl (v : Val) : jsEqVal v v = true := by
  cases v <;> simp [jsEqVal]

theorem jsEq_refl (x : Option Val) : jsEq x x = true := by
  cases x with
  | none => rfl
  | some v => simpa [jsEq] using jsEqVal_refl v

/-- JS truthiness of a possibly-absent value, as in `if (!model.id)`. -/
def truthy : Option Val → Bool
  | none => false
  | some Val.vNull => false
  | some (Val.vBool b) => b
  | some (Val.vNum n) => n ≠ 0
  | some (Val.vStr s) => !s.isEmpty

/-- JS `String(v)` for a possibly-absent primitive, used for string
concatenation in error messages and for child path keys. -/
def jsValToString : Option Val → String
  | none => "undefined"
  | some Val.vNull => "null"
  | some (Val.vBool b) => if b then "true" else "false"
  | some (Val.vNum n) => toString n
  | some (Val.vStr s) => s

/-- Attribute map: ordered association list, one entry per key (JS objects
keep insertion order and have no duplicate keys). -/
abbrev Attrs := List (String × Val)

/-- Value stored at key `k`, `none` when the key is absent (JS `undefined`). -/
def lookupKey {α : Type} (m : List (String × α)) (k : String) : Option α :=
  match m with
  | [] => none
  | (k0, v0) :: rest => if k0 = k then some v0 else lookupKey rest k

/-- Counterpart of underscore `has`: the key is present in the map. -/
def hasKey {α : Type} (m : List (String × α)) (k : String) : Bool :=
  (lookupKey m k).isSome

/-- Counterpart of underscore `keys`. -/
def keysOf {α : Type} (m : List (String × α)) : List String :=
  m.map Prod.fst

/-- JS property assignment `m[k] = v`: replaces the entry in place when the
key exists (keys keep their insertion position), appends otherwise. -/
def setKey {α : Type} (m : List (String × α)) (k : String) (v : α) :
    List (String × α) :=
  match m with
  | [] => [(k, v)]
  | (k0, v0) :: rest =>
    if k0 = k then (k, v) :: rest else (k0, v0) :: setKey rest k v

/-- JS `delete m[k]` (and Backbone `unset`): drops the key. -/
def removeKey {α : Type} (m : List (String × α)) (k : String) :
    List (String × α) :=
  match m with
  | [] => []
  | (k0, v0) :: rest =>
    if k0 = k then removeKey rest k else (k0, v0) :: removeKey rest k

theorem lookupKey_setKey_self {α : Type} (m : List (String × α)) (k : String)
    (v : α) : lookupKey (setKey m k v) k = some v := by
  induction m with
  | nil => simp [setKey, lookupKey]
  | cons hd tl ih =>
    obtain ⟨k0, v0⟩ := hd
    by_cases h : k0 = k <;> simp [setKey, lookupKey, h, ih]

theorem lookupKey_setKey_other {α : Type} (m : List (String × α))
    (k kq : String) (v : α) (h : kq ≠ k) :
    lookupKey (setKey m k v) kq = lookupKey m kq := by
  induction m with
  | nil => simp [setKey, lookupKey, Ne.symm h]
  | cons hd tl ih =>
    obtain ⟨k0, v0⟩ := hd
    by_cases h0 : k0 = k
    · subst h0
      simp [setKey, lookupKey, Ne.symm h]
    · simp [setKey, lookupKey, h0, ih]

theorem lookupKey_removeKey_self {α : Type} (m : List (String × α))
    (k : String) : lookupKey (removeKey m k) k = none := by
  induction m with
  | nil => simp [removeKey, lookupKey]
  | cons hd tl ih =>
    obtain ⟨k0, v0⟩ := hd
    by_cases h : k0 = k <;> simp [removeKey, lookupKey, h, ih]

theorem lookupKey_removeKey_other {α : Type} (m : List (String × α))
    (k kq : String) (h : kq ≠ k) :
    lookupKey (removeKey m k) kq = lookupKey m kq := by
  induction m with
  | nil => simp [removeKey, lookupKey]
  | cons hd tl ih =>
    obtain ⟨k0, v0⟩ := hd
    by_cases h0 : k0 = k
    · subst h0
      simp [removeKey, lookupKey, Ne.symm h, ih]
    · simp [removeKey, lookupKey, h0, ih]

theorem lookupKey_eq_none_iff {α : Type} (m : List (String × α)) (k : String) :
    lookupKey m k = none ↔ k ∉ keysOf m := by
  induction m with
  | nil => simp [lookupKey, keysOf]
  | cons hd tl ih =>
    obtain ⟨k0, v0⟩ := hd
    by_cases h : k0 = k
    · subst h
      simp [lookupKey, keysOf]
    · simp [lookupKey, keysOf, h, ih, Ne.symm h]

theorem lookupKey_isSome_of_mem {α : Type} (m : List (String × α))
    (k : String) (h : k ∈ keysOf m) : (lookupKey m k).isSome = true := by
  rcases hl : lookupKey m k with _ | v
  · exact absurd h ((lookupKey_eq_none_iff m k).mp hl)
  · rfl

theorem hasKey_false_iff {α : Type} (m : List (String × α)) (k : String) :
    hasKey m k = false ↔ k ∉ keysOf m := by
  constructor
  · intro h hm
    have hs := lookupKey_isSome_of_mem m k hm
    simp [hasKey, hs] at h
  · intro h
    have hn : lookupKey m k = none := (lookupKey_eq_none_iff m k).mpr h
    simp [hasKey, hn]

theorem hasKey_true_of_mem {α : Type} (m : List (String × α)) (k : String)
    (h : k ∈ keysOf m) : hasKey m k = true := by
  simpa [hasKey] using lookupKey_isSome_of_mem m k h

theorem mem_keysOf_of_hasKey {α : Type} (m : List (String × α)) (k : String)
    (h : hasKey m k = true) : k ∈ keysOf m := by
  by_contra hn
  rw [(hasKey_false_iff m k).mpr hn] at h
  cases h

/-- Counterpart of underscore `difference(xs, ys)`: the members of `xs` not
in `ys`, in order. -/
def listDiff (xs ys : List String) : List String :=
  xs.filter (fun x => decide (x ∉ ys))

/-- Worker for `uniqKeys`, keeping the first occurrence of each key. -/
def uniqKeysAux (seen : List String) : List String → List String
  | [] => []
  | k :: ks =>
    if k ∈ seen then uniqKeysAux seen ks else k :: uniqKeysAux (k :: seen) ks

/-- Counterpart of underscore `union` applied to two key lists (concatenate,
keep first occurrences). -/
def uniqKeys (l : List String) : List String :=
  uniqKeysAux [] l

theorem mem_uniqKeysAux (l : List String) (seen : List String) (x : String) :
    x ∈ uniqKeysAux seen l ↔ x ∈ l ∧ x ∉ seen := by
  induction l generalizing seen with
  | nil => simp [uniqKeysAux]
  | cons k ks ih =>
    by_cases hk : k ∈ seen
    · rw [uniqKeysAux, if_pos hk, ih]
      constructor
      · rintro ⟨hx, hs⟩
        exact ⟨List.mem_cons_of_mem _ hx, hs⟩
      · rintro ⟨hx, hs⟩
        rcases List.mem_cons.mp hx with h | h
        · subst h
          exact absurd hk hs
        · exact ⟨h, hs⟩
    · rw [uniqKeysAux, if_neg hk]
      constructor
      · intro hmem
        rcases List.mem_cons.mp hmem with h | h
        · subst h
          exact ⟨List.mem_cons_self _ _, hk⟩
        · obtain ⟨hx, hs⟩ := (ih (k :: seen)).mp h
          exact ⟨List.mem_cons_of_mem _ hx,
            fun hxs => hs (List.mem_cons_of_mem _ hxs)⟩
      · rintro ⟨hx, hs⟩
        rcases List.mem_cons.mp hx with h | h
        · subst h
          exact List.mem_cons_self _ _
        · by_cases hxk : x = k
          · subst hxk
            exact List.mem_cons_self _ _
          · refine List.mem_cons_of_mem _ ((ih (k :: seen)).mpr ⟨h, ?_⟩)
            intro hm
            rcases List.mem_cons.mp hm with h2 | h2
            · exact hxk h2
            · exact hs h2

theorem mem_uniqKeys (l : List String) (x : String) :
    x ∈ uniqKeys l ↔ x ∈ l := by
  simp [uniqKeys, mem_uniqKeysAux]

theorem nodup_uniqKeysAux (l : List String) (seen : List String) :
    (uniqKeysAux seen l).Nodup := by
  induction l generalizing seen with
  | nil => simp [uniqKeysAux]
  | cons k ks ih =>
    by_cases hk : k ∈ seen
    · simpa [uniqKeysAux, hk] using ih seen
    · have hnotin : k ∉ uniqKeysAux (k :: seen) ks := by
        intro hmem
        exact ((mem_uniqKeysAux ks (k :: seen) k).mp hmem).2
          (List.mem_cons_self _ _)
      simpa [uniqKeysAux, hk] using
        List.nodup_cons.mpr ⟨hnotin, ih (k :: seen)⟩

theorem nodup_uniqKeys (l : List String) : (uniqKeys l).Nodup :=
  nodup_uniqKeysAux l []

/-- Loop body of the diff computation in `Backbone.Firebase.Collection._updateModel`
(backfire.js lines 452-459): for each key of the union, a key absent from the
local attributes becomes a `null` tombstone, a key whose local value differs
from the remote one (JS loose `!=`) becomes the local value, and an unchanged
key is skipped. -/
def diffStep (remoteAttributes localAttributes : Attrs) (acc : Attrs)
    (key : String) : Attrs :=
  if hasKey localAttributes key = false then
    setKey acc key Val.vNull
  else if jsEq (lookupKey localAttributes key) (lookupKey remoteAttributes key)
      = false then
    setKey acc key ((lookupKey localAttributes key).getD Val.vNull)
  else acc

/-- Diff of `Backbone.Firebase.Collection._updateModel`: iterate the union of
the remote-snapshot keys and the local-attribute keys, building the
`updateAttributes` patch. -/
def computeUpdateAttributes (remoteAttributes localAttributes : Attrs) :
    Attrs :=
  (uniqKeys (keysOf remoteAttributes ++ keysOf localAttributes)).foldl
    (diffStep remoteAttributes localAttributes) []

/-- Patch entry contributed by one key, as an option: `none` means the key is
omitted from the patch. -/
def diffEntry (remoteAttributes localAttributes : Attrs) (key : String) :
    Option Val :=
  if hasKey localAttributes key = false then some Val.vNull
  else if jsEq (lookupKey localAttributes key) (lookupKey remoteAttributes key)
      = false then
    lookupKey localAttributes key
  else none

theorem diffStep_eq_entry (r l : Attrs) (acc : Attrs) (key : String) :
    diffStep r l acc key =
      match diffEntry r l key with
      | some v => setKey acc key v
      | none => acc := by
  unfold diffStep diffEntry
  by_cases h1 : hasKey l key = false
  · simp [h1]
  · rcases hl : lookupKey l key with _ | v
    · exact absurd (by simp [hasKey, hl]) h1
    · rw [if_neg h1, if_neg h1]
      simp only [Option.getD_some]
      by_cases h2 : jsEq (some v) (lookupKey r key) = false <;> simp [h2]

theorem lookup_foldl_diffStep (r l : Attrs) (ks : List String)
    (hnd : ks.Nodup) (acc : Attrs) (k : String) :
    lookupKey (ks.foldl (diffStep r l) acc) k =
      if k ∈ ks then
        match diffEntry r l k with
        | some v => some v
        | none => lookupKey acc k
      else lookupKey acc k := by
  induction ks generalizing acc with
  | nil => simp
  | cons k0 rest ih =>
    have hnd2 : rest.Nodup := (List.nodup_cons.mp hnd).2
    have hk0 : k0 ∉ rest := (List.nodup_cons.mp hnd).1
    rw [List.foldl_cons, ih hnd2]
    by_cases hmem : k ∈ (k0 :: rest)
    · rcases List.mem_cons.mp hmem with heq | hrest
      · subst heq
        rw [if_pos hmem, if_neg hk0, diffStep_eq_entry]
        rcases he : diffEntry r l k with _ | v
        · simp
        · simp [lookupKey_setKey_self]
      · have hne : k ≠ k0 := fun h => hk0 (h ▸ hrest)
        rw [if_pos hmem, if_pos hrest, diffStep_eq_entry]
        rcases he : diffEntry r l k0 with _ | v
        · rfl
        · rcases he2 : diffEntry r l k with _ | w
          · simp [lookupKey_setKey_other acc k0 k v hne]
          · rfl
    · have hne : k ≠ k0 := fun h => hmem (h ▸ List.mem_cons_self _ _)
      have hnr : k ∉ rest := fun h => hmem (List.mem_cons_of_mem _ h)
      rw [if_neg hmem, if_neg hnr, diffStep_eq_entry]
      rcases he : diffEntry r l k0 with _ | v
      · rfl
      · exact lookupKey_setKey_other acc k0 k v hne

/-- Value of the computed patch at any key: present exactly when the key is
in the union and its `diffEntry` is not omitted. -/
theorem lookup_computeUpdateAttributes (r l : Attrs) (k : String) :
    lookupKey (computeUpdateAttributes r l) k =
      if k ∈ uniqKeys (keysOf r ++ keysOf l) then diffEntry r l k
      else none := by
  unfold computeUpdateAttributes
  rw [lookup_foldl_diffStep r l _ (nodup_uniqKeys _) [] k]
  by_cases hmem : k ∈ uniqKeys (keysOf r ++ keysOf l)
  · rw [if_pos hmem, if_pos hmem]
    rcases he : diffEntry r l k with _ | v <;> simp [he, lookupKey]
  · rw [if_neg hmem, if_neg hmem]
    rfl

theorem foldl_diffStep_nil (r l : Attrs) (ks : List String)
    (h : ∀ k ∈ ks, diffEntry r l k = none) :
    ks.foldl (diffStep r l) [] = [] := by
  induction ks with
  | nil => rfl
  | cons k0 rest ih =>
    rw [List.foldl_cons, diffStep_eq_entry, h k0 (List.mem_cons_self _ _)]
    exact ih (fun k hk => h k (List.mem_cons_of_mem _ hk))

theorem computeUpdateAttributes_eq_nil (r l : Attrs)
    (h : ∀ k ∈ uniqKeys (keysOf r ++ keysOf l), diffEntry r l k = none) :
    computeUpdateAttributes r l = [] :=
  foldl_diffStep_nil r l _ h

/-- Value of a remote snapshot: a JS object (attribute map) or a primitive
(including `null`, which denotes a deleted node). -/
inductive RVal where
  | obj (m : Attrs)
  | prim (v : Val)
  deriving Repr, DecidableEq

/-- Backbone `set` with an attribute-map argument (external LocalModel
contract): assign every key of `m` into `attrs`, in order. -/
def bbSetObj (attrs : Attrs) (m : Attrs) : Attrs :=
  m.foldl (fun acc kv => setKey acc kv.fst kv.snd) attrs

theorem lookupKey_bbSetObj (m : Attrs) (hnd : (keysOf m).Nodup)
    (attrs : Attrs) (k : String) :
    lookupKey (bbSetObj attrs m) k =
      (lookupKey m k).orElse (fun _ => lookupKey attrs k) := by
  induction m generalizing attrs with
  | nil => simp [bbSetObj, lookupKey, Option.orElse]
  | cons hd tl ih =>
    obtain ⟨k0, v0⟩ := hd
    have hnd2 : (keysOf tl).Nodup := (List.nodup_cons.mp hnd).2
    have hk0 : k0 ∉ keysOf tl := (List.nodup_cons.mp hnd).1
    have hstep : bbSetObj attrs ((k0, v0) :: tl) = bbSetObj (setKey attrs k0 v0) tl := rfl
    rw [hstep, ih hnd2]
    by_cases hk : k0 = k
    · subst hk
      have : lookupKey tl k0 = none := (lookupKey_eq_none_iff tl k0).mpr hk0
      simp [lookupKey, this, lookupKey_setKey_self, Option.orElse]
    · simp [lookupKey, hk, lookupKey_setKey_other attrs k0 k v0 (Ne.symm hk),
        Option.orElse]

/-- Backbone `isNew` as used by `_setId` (backfire.js line 175): the model
has no usable identifier, i.e. `this.id == null`. -/
def isNewAttrs (attrs : Attrs) : Bool :=
  match lookupKey attrs "id" with
  | none => true
  | some Val.vNull => true
  | some _ => false

/-- Embedding of `Backbone.Firebase.Model._setId` (backfire.js lines 173-178):
if the record is new, silently set its `id` attribute to the snapshot's node
key. -/
def setIdFromSnap (attrs : Attrs) (snapName : String) : Attrs :=
  if isNewAttrs attrs then setKey attrs "id" (Val.vStr snapName) else attrs

/-- Unset phase of `Backbone.Firebase.Model._processChanges` (backfire.js
lines 193-198): unset every locally-held key absent from the snapshot value.
Runs only when the snapshot value is a non-null object. -/
def unsetAbsentKeys (attrs : Attrs) (m : Attrs) : Attrs :=
  (listDiff (keysOf attrs) (keysOf m)).foldl removeKey attrs

theorem lookupKey_foldl_removeKey (ks : List String) (attrs : Attrs)
    (k : String) :
    lookupKey (ks.foldl removeKey attrs) k =
      if k ∈ ks then none else lookupKey attrs k := by
  induction ks generalizing attrs with
  | nil => simp
  | cons k0 rest ih =>
    rw [List.foldl_cons, ih]
    by_cases hmem : k ∈ (k0 :: rest)
    · rcases List.mem_cons.mp hmem with heq | hrest
      · subst heq
        rw [if_pos hmem]
        by_cases hr : k ∈ rest
        · rw [if_pos hr]
        · rw [if_neg hr, lookupKey_removeKey_self]
      · rw [if_pos hmem, if_pos hrest]
    · have hne : k ≠ k0 := fun h => hmem (h ▸ List.mem_cons_self _ _)
      have hnr : k ∉ rest := fun h => hmem (List.mem_cons_of_mem _ h)
      rw [if_neg hmem, if_neg hnr, lookupKey_removeKey_other attrs k0 k hne]

theorem lookupKey_unsetAbsentKeys (attrs m : Attrs) (k : String) :
    lookupKey (unsetAbsentKeys attrs m) k =
      if k ∈ keysOf m then lookupKey attrs k else none := by
  unfold unsetAbsentKeys
  rw [lookupKey_foldl_removeKey]
  by_cases hm : k ∈ keysOf m
  · rw [if_pos hm, if_neg]
    simp [listDiff, hm]
  · rw [if_neg hm]
    by_cases ha : k ∈ keysOf attrs
    · rw [if_pos (by simp [listDiff, hm, ha])]
    · rw [if_neg (by simp [listDiff, hm, ha]), (lookupKey_eq_none_iff attrs k).mpr ha]

/-- Embedding of `Backbone.Firebase.Model._setLocal` together with
`_processChanges` (backfire.js lines 181-204): for an object snapshot, unset
the locally-held keys absent from it, assign the identifier from the node key
when the record is new, then merge the snapshot keys via Backbone `set`.  For
a primitive snapshot the unset phase is skipped (`typeof` guard at line 193);
`this.set(null)` is a Backbone no-op, and `set` applied to another primitive
touches no existing attribute key, so the external LocalModel `set` is
modeled as leaving the attribute map unchanged in both primitive cases. -/
def setLocalFromSnap (attrs : Attrs) (snapName : String) (v : RVal) : Attrs :=
  match v with
  | RVal.obj m => bbSetObj (setIdFromSnap (unsetAbsentKeys attrs m) snapName) m
  | RVal.prim _ => setIdFromSnap attrs snapName

/-- One write issued to the RemoteStore. -/
inductive RemoteOp where
  | setChild (childPath : String) (v : RVal)
  | updateChild (childPath : String) (patch : Attrs)
  | setWithPriorityChild (childPath : String) (value : Attrs)
      (priority : Option Val)
  | updateRec (patch : List (String × Option Val))
  deriving Repr, DecidableEq

/-- Embedding of `Backbone.Firebase.Model._updateModel` (backfire.js lines
208-221): starting from `changedAttributes()` (a copy of `model.changed`,
whose entries may hold `undefined` for unset keys, modeled as `none`),
replace every `undefined`/`null` entry by a `null` tombstone, except the
`id` key, which is deleted from the patch. -/
def model_updateModel (changed : List (String × Option Val)) :
    List (String × Option Val) :=
  changed.foldl
    (fun modelObj kv =>
      if kv.snd = none ∨ kv.snd = some Val.vNull then
        if kv.fst = "id" then removeKey modelObj kv.fst
        else setKey modelObj kv.fst (some Val.vNull)
      else modelObj)
    changed

/-- State of one record: its attribute map, the `_remoteChanging` re-entrancy
flag (set by the collection engine's `_preventSync`), and whether the
one-shot `once('sync', ...)` defaults handler has already fired. -/
structure RecordState where
  attrs : Attrs
  remoteChanging : Bool
  syncedOnce : Bool
  deriving Repr, DecidableEq

/-- Sync mode fixed at construction: `autoSync` records get the `SyncModel`
behavior, others the `OnceModel` behavior (backfire.js lines 142-148). -/
inductive Mode where
  | autoSync
  | once
  deriving Repr, DecidableEq

/-- Local mutation of a record through the external LocalModel interface. -/
inductive LocalOp where
  | setAttr (k : String) (v : Val)
  | unsetAttr (k : String)
  deriving Repr, DecidableEq

/-- Backbone attribute mutation (external LocalModel contract): returns the
new attribute map and the `model.changed` hash of the triggered `change`
event, empty when nothing changed (no event fires). -/
def applyLocalOp (attrs : Attrs) : LocalOp → Attrs × List (String × Option Val)
  | LocalOp.setAttr k v =>
    if lookupKey attrs k = some v then (attrs, [])
    else (setKey attrs k v, [(k, some v)])
  | LocalOp.unsetAttr k =>
    if hasKey attrs k then (removeKey attrs k, [(k, none)])
    else (attrs, [])

/-- Silent local application of a record-level patch, as done by the
`OnceModel` change listener `this.set(model, { silent: true })` (backfire.js
line 101). -/
def applyPatchSilently (attrs : Attrs) (patch : List (String × Option Val)) :
    Attrs :=
  patch.foldl
    (fun acc kv =>
      match kv.snd with
      | some v => setKey acc kv.fst v
      | none => acc)
    attrs

/-- Push issued by the `SyncModel` change listener (backfire.js lines 70-72
with `_listenLocalChange`, lines 224-232): the handler computes
`_updateModel(model)` and calls `this.firebase.update(newModel)`
unconditionally — it never consults `remoteChanging`. -/
def syncModel_onLocalChange (_s : RecordState)
    (changed : List (String × Option Val)) : List RemoteOp :=
  [RemoteOp.updateRec (model_updateModel changed)]

/-- One local mutation processed by a record in the given mode: Backbone
applies the mutation; if a `change` event fires, the mode's listener runs
(`SyncModel` pushes a remote update, `OnceModel` re-applies the tombstone
patch locally and silently). -/
def recordStep (mode : Mode) (s : RecordState) (op : LocalOp) :
    RecordState × List RemoteOp :=
  let p := applyLocalOp s.attrs op
  if p.snd = [] then ({ s with attrs := p.fst }, [])
  else
    match mode with
    | Mode.autoSync =>
      ({ s with attrs := p.fst }, syncModel_onLocalChange s p.snd)
    | Mode.once =>
      ({ s with attrs := applyPatchSilently p.fst (model_updateModel p.snd) },
        [])

/-- Sequence of local mutations processed by a record, collecting every
RemoteStore write issued along the way. -/
def recordRun (mode : Mode) (s : RecordState) :
    List LocalOp → RecordState × List RemoteOp
  | [] => (s, [])
  | op :: rest =>
    let p := recordStep mode s op
    let q := recordRun mode p.fst rest
    (q.fst, p.snd ++ q.snd)

/-- Local notification emitted through the Backbone event system. -/
inductive Notif where
  | add (idv : Option Val)
  | remove (idv : Option Val)
  | change (key : String)
  | sync
  deriving Repr, DecidableEq

/-- Counterpart of underscore `defaults(obj, ds)`: fill into `obj` every key
of `ds` that `obj` does not already have. -/
def underscoreDefaults (obj ds : Attrs) : Attrs :=
  ds.foldl
    (fun acc kv => if hasKey acc kv.fst then acc else setKey acc kv.fst kv.snd)
    obj

theorem keysOf_cons {α : Type} (p : String × α) (l : List (String × α)) :
    keysOf (p :: l) = p.fst :: keysOf l := rfl

theorem keysOf_setKey_mem {α : Type} (m : List (String × α)) (k : String)
    (v : α) (h : hasKey m k = true) : keysOf (setKey m k v) = keysOf m := by
  induction m with
  | nil => simp [hasKey, lookupKey] at h
  | cons hd tl ih =>
    obtain ⟨k0, v0⟩ := hd
    by_cases hk : k0 = k
    · subst hk
      simp [setKey, keysOf]
    · have h2 : hasKey tl k = true := by
        simpa [hasKey, lookupKey, hk] using h
      simp only [setKey, if_neg hk, keysOf_cons]
      rw [ih h2]

theorem keysOf_setKey_not_mem {α : Type} (m : List (String × α)) (k : String)
    (v : α) (h : hasKey m k = false) :
    keysOf (setKey m k v) = keysOf m ++ [k] := by
  induction m with
  | nil => simp [setKey, keysOf]
  | cons hd tl ih =>
    obtain ⟨k0, v0⟩ := hd
    by_cases hk : k0 = k
    · subst hk
      simp [hasKey, lookupKey] at h
    · have h2 : hasKey tl k = false := by
        simpa [hasKey, lookupKey, hk] using h
      simp only [setKey, if_neg hk, keysOf_cons]
      rw [ih h2, List.cons_append]

theorem nodup_keysOf_setKey {α : Type} (m : List (String × α)) (k : String)
    (v : α) (h : (keysOf m).Nodup) : (keysOf (setKey m k v)).Nodup := by
  by_cases hk : hasKey m k = true
  · rw [keysOf_setKey_mem m k v hk]
    exact h
  · have hf : hasKey m k = false := Bool.eq_false_iff.mpr hk
    have hnm : k ∉ keysOf m := (hasKey_false_iff m k).mp hf
    rw [keysOf_setKey_not_mem m k v hf]
    simp [List.nodup_append, h, hnm]

theorem lookupKey_underscoreDefaults (ds : Attrs) (obj : Attrs) (k : String)
    (h : hasKey obj k = true) :
    lookupKey (underscoreDefaults obj ds) k = lookupKey obj k := by
  induction ds generalizing obj with
  | nil => rfl
  | cons kv rest ih =>
    have hstep : underscoreDefaults obj (kv :: rest) =
        underscoreDefaults
          (if hasKey obj kv.fst then obj else setKey obj kv.fst kv.snd)
          rest := rfl
    rw [hstep]
    by_cases hk : hasKey obj kv.fst
    · rw [if_pos hk]
      exact ih obj h
    · rw [if_neg hk]
      have hne : k ≠ kv.fst := by
        intro he
        rw [he] at h
        exact hk h
      have hl := lookupKey_setKey_other obj kv.fst k kv.snd hne
      have h2 : hasKey (setKey obj kv.fst kv.snd) k = true := by
        unfold hasKey
        rw [hl]
        exact h
      rw [ih _ h2, hl]

theorem nodup_underscoreDefaults (ds : Attrs) (obj : Attrs)
    (h : (keysOf obj).Nodup) : (keysOf (underscoreDefaults obj ds)).Nodup := by
  induction ds generalizing obj with
  | nil => exact h
  | cons kv rest ih =>
    have hstep : underscoreDefaults obj (kv :: rest) =
        underscoreDefaults
          (if hasKey obj kv.fst then obj else setKey obj kv.fst kv.snd)
          rest := rfl
    rw [hstep]
    by_cases hk : hasKey obj kv.fst
    · rw [if_pos hk]
      exact ih obj h
    · rw [if_neg hk]
      exact ih _ (nodup_keysOf_setKey obj kv.fst kv.snd h)

/-- Embedding of the `SyncModel` `value` subscription (backfire.js lines
64-67) together with the defaults hook installed by the model constructor
(lines 121-126): apply the snapshot locally via `_setLocal`, then trigger a
`sync` notification; the `once('sync', ...)` handler, on the first such
notification only, sets `underscore.defaults(this.toJSON(), defaults)`,
filling in declared defaults without overwriting present attributes. -/
def onValueEvent (defaults : Attrs) (s : RecordState) (snapName : String)
    (v : RVal) : RecordState × List Notif :=
  let attrs1 := setLocalFromSnap s.attrs snapName v
  if s.syncedOnce then
    ({ s with attrs := attrs1 }, [Notif.sync])
  else
    ({ attrs := bbSetObj attrs1 (underscoreDefaults attrs1 defaults),
       remoteChanging := s.remoteChanging,
       syncedOnce := true }, [Notif.sync])

/-- Member record of a Firebase collection: attribute map, the
`_remoteAttributes` snapshot cache (absent until the first child event for
the record), and the `_remoteChanging` re-entrancy flag set by
`_preventSync`. -/
structure Member where
  attrs : Attrs
  remoteAttributes : Option Attrs
  remoteChanging : Bool
  deriving Repr, DecidableEq

/-- State of a `Backbone.Firebase.Collection`: its member records in order
and the `_suppressEvent` echo-suppression flag. -/
structure FBCollection where
  models : List Member
  suppressEvent : Bool
  deriving Repr, DecidableEq

/-- JS string coercion of a model identifier used to form a child path, as in
`this.firebase.ref().child(model.id)`. -/
def childKey (idv : Option Val) : String :=
  jsValToString idv

/-- Id normalization at the head of the child event handlers
(`if (!model.id) model.id = snap.name()`): give the incoming object the node
key as identifier when it lacks a truthy one. -/
def normalizeChildModel (m0 : Attrs) (snapName : String) : Attrs :=
  if truthy (lookupKey m0 "id") then m0 else setKey m0 "id" (Val.vStr snapName)

/-- Backbone `Collection.prototype.add` for a single parsed attribute map
(external LocalCollection contract): membership is keyed by identifier with
uniqueness enforced, a duplicate is ignored, and a successful add emits a
local `add` notification unless the `silent` option is passed. -/
def protoCollectionAdd (c : FBCollection) (m : Attrs) (silent : Bool) :
    FBCollection × List Notif :=
  if c.models.any
      (fun mem => jsEq (lookupKey mem.attrs "id") (lookupKey m "id")) then
    (c, [])
  else
    ({ c with
        models := c.models ++
          [{ attrs := m, remoteAttributes := none, remoteChanging := false }] },
      if silent then [] else [Notif.add (lookupKey m "id")])

/-- Assignment `this.get(model.id)._remoteAttributes = model` (backfire.js
line 391): cache the raw incoming value on the member with the matching
identifier. -/
def cacheRemoteAttributes (ms : List Member) (idv : Option Val) (m : Attrs) :
    List Member :=
  match ms with
  | [] => []
  | mem :: rest =>
    if jsEq (lookupKey mem.attrs "id") idv then
      { mem with remoteAttributes := some m } :: rest
    else mem :: cacheRemoteAttributes rest idv m

/-- Suppression check and add of `_childAdded`, after the incoming value has
been normalized to an attribute map carrying an id.  When `_suppressEvent`
is set it is consumed, but the options object in
`Backbone.Collection.prototype.add.apply(this, [model], { silent: true })`
(backfire.js line 387) is the third argument of `Function.prototype.apply`,
which takes only two: the options are discarded, so in both branches the add
is performed without the `silent` option. -/
def childAddedWithModel (c : FBCollection) (model : Attrs) :
    FBCollection × List Notif :=
  let p :=
    if c.suppressEvent = true then
      protoCollectionAdd { c with suppressEvent := false } model false
    else protoCollectionAdd c model false
  ({ p.fst with
      models := cacheRemoteAttributes p.fst.models (lookupKey model "id") model },
    p.snd)

/-- Embedding of `Backbone.Firebase.Collection._childAdded` (backfire.js
lines 377-392).  A `null` snapshot value makes the JS `model.id` read throw,
hence the error case.  For a non-object value, `model` is replaced by a
fresh object before the id assignment (lines 380-383). -/
def childAdded (c : FBCollection) (snapName : String) (v : RVal) :
    Except String (FBCollection × List Notif) :=
  match v with
  | RVal.prim Val.vNull =>
    Except.error "TypeError: Cannot read properties of null"
  | RVal.prim _ =>
    Except.ok (childAddedWithModel c [("id", Val.vStr snapName)])
  | RVal.obj m =>
    Except.ok (childAddedWithModel c (normalizeChildModel m snapName))

/-- Embedding of `Backbone.Firebase.Collection._parseModels` (backfire.js
lines 361-375) on plain attribute maps: give every record lacking a truthy
id a fresh key from the remote store's key generator, supplied here as a
stream of fresh names. -/
def parseModels (models : List Attrs) (freshIds : List String) : List Attrs :=
  match models with
  | [] => []
  | m :: rest =>
    if truthy (lookupKey m "id") then m :: parseModels rest freshIds
    else
      match freshIds with
      | f :: fs => setKey m "id" (Val.vStr f) :: parseModels rest fs
      | [] => setKey m "id" (Val.vStr "") :: parseModels rest []

/-- Embedding of `Backbone.Firebase.Collection.add` (backfire.js lines
290-306): parse the models, and for each one set `_suppressEvent` when the
`silent` option was passed, then issue a full `set` at the record's child
path.  No local add happens here; the local collection is only touched by
the later `child_added` echo. -/
def fbCollectionAdd (c : FBCollection) (models : List Attrs) (silent : Bool)
    (freshIds : List String) : FBCollection × List RemoteOp :=
  (parseModels models freshIds).foldl
    (fun p m =>
      let c1 :=
        if silent = true then { p.fst with suppressEvent := true } else p.fst
      (c1, p.snd ++ [RemoteOp.setChild (childKey (lookupKey m "id")) (RVal.obj m)]))
    (c, [])

/-- Counterpart of underscore `find` on the member list. -/
def findFirstMember (ms : List Member) (p : Member → Bool) : Option Member :=
  match ms with
  | [] => none
  | mem :: rest => if p mem then some mem else findFirstMember rest p

/-- In-place mutation of the member found by `findFirstMember`: the JS
handler mutates the found record object, which the collection's model array
holds by reference. -/
def replaceFirstMember (ms : List Member) (p : Member → Bool)
    (f : Member → Member) : List Member :=
  match ms with
  | [] => []
  | mem :: rest =>
    if p mem then f mem :: rest else mem :: replaceFirstMember rest p f

/-- Keys whose value actually changes when Backbone `set` merges `m` into
`attrs` (a `change:key` notification fires for each, underscore `isEqual`
comparison). -/
def changedKeysOfSet (attrs : Attrs) (m : Attrs) : List String :=
  (m.filter (fun kv => decide (lookupKey attrs kv.fst ≠ some kv.snd))).map
    Prod.fst

/-- Core of `Backbone.Firebase.Collection._childChanged` (backfire.js lines
399-424), acting on the member list.  The source file runs under
`"use strict"`: for a primitive snapshot value the id normalization
`model.id = snap.name()` throws a `TypeError` (property assignment on a
primitive), and for `null` the `model.id` read throws, so both are error
cases.  For an object value: normalize the id from the node key, locate the
member by loose id equality, and throw when none exists; otherwise set
`_remoteChanging`, cache `_remoteAttributes`, unset the locally-held keys
absent from the incoming value, merge the incoming value, and clear
`_remoteChanging`.  The member-level `change` notifications fired by the
unset and set calls are returned. -/
def childChangedCore (ms : List Member) (snapName : String) (v : RVal) :
    Except String (List Member × List Notif) :=
  match v with
  | RVal.prim Val.vNull =>
    Except.error "TypeError: Cannot read properties of null"
  | RVal.prim _ =>
    Except.error "TypeError: Cannot create property on a primitive value"
  | RVal.obj m0 =>
    let model := normalizeChildModel m0 snapName
    let pred := fun (child : Member) =>
      jsEq (lookupKey child.attrs "id") (lookupKey model "id")
    match findFirstMember ms pred with
    | none =>
      Except.error
        ("Could not find model with ID " ++ jsValToString (lookupKey model "id"))
    | some item =>
      let removed := listDiff (keysOf item.attrs) (keysOf model)
      let attrs1 := removed.foldl removeKey item.attrs
      let notifs :=
        removed.map Notif.change ++
          (changedKeysOfSet attrs1 model).map Notif.change
      let newItem : Member :=
        { attrs := bbSetObj attrs1 model,
          remoteAttributes := some model,
          remoteChanging := false }
      Except.ok (replaceFirstMember ms pred (fun _ => newItem), notifs)

/-- Embedding of `Backbone.Firebase.Collection._childChanged`: the handler
reads and writes only the member list; it never consults or alters
`_suppressEvent`. -/
def childChanged (c : FBCollection) (snapName : String) (v : RVal) :
    Except String (FBCollection × List Notif) :=
  match childChangedCore c.models snapName v with
  | Except.error e => Except.error e
  | Except.ok p => Except.ok ({ c with models := p.fst }, p.snd)

/-- Embedding of `Backbone.Firebase.Collection._updateModel` (backfire.js
lines 443-473), the handler run on a member's local `change` event: skip
entirely while `_remoteChanging` is set; otherwise diff the cached
`_remoteAttributes` (empty when absent) against the current attributes, and
when the patch is non-empty push it — through `setWithPriority` with the
priority extracted and deleted from the local value map when the patch
carries the `.priority` key, through a merge `update` otherwise. -/
def collection_updateModel (model : Member) : Option RemoteOp :=
  if model.remoteChanging then none
  else
    let remoteAttributes := model.remoteAttributes.getD []
    let localAttributes := model.attrs
    let updateAttributes := computeUpdateAttributes remoteAttributes localAttributes
    if updateAttributes.isEmpty then none
    else if hasKey updateAttributes ".priority" then
      some (RemoteOp.setWithPriorityChild
        (childKey (lookupKey localAttributes "id"))
        (removeKey localAttributes ".priority")
        (lookupKey localAttributes ".priority"))
    else
      some (RemoteOp.updateChild (childKey (lookupKey localAttributes "id"))
        updateAttributes)

/-- C1: evaluation of the echo-suppression scenario at the failing input.
On a collection with the suppression flag initially clear, a silent `add` of
the record with id `x` issues exactly one remote `set` at child path `x` and
adds nothing locally; the subsequent `child_added` echo consumes the
suppression flag and leaves exactly one member.  However, the echo emits a
local `add` notification, because `_childAdded` passes its `silent` option
as the third argument of `Function.prototype.apply`, which discards it —
contradicting the claim (and the evident intent of the source, which spells
out the option object). -/
theorem c1_silent_add_echo_eval :
    (fbCollectionAdd ⟨[], false⟩
        [[("id", Val.vStr "x"), ("name", Val.vStr "a")]] true []).snd =
      [RemoteOp.setChild "x"
        (RVal.obj [("id", Val.vStr "x"), ("name", Val.vStr "a")])]
    ∧ (fbCollectionAdd ⟨[], false⟩
        [[("id", Val.vStr "x"), ("name", Val.vStr "a")]] true []).fst =
      ⟨[], true⟩
    ∧ childAdded ⟨[], true⟩ "x"
        (RVal.obj [("id", Val.vStr "x"), ("name", Val.vStr "a")]) =
      Except.ok
        (⟨[⟨[("id", Val.vStr "x"), ("name", Val.vStr "a")],
            some [("id", Val.vStr "x"), ("name", Val.vStr "a")], false⟩],
           false⟩,
         [Notif.add (some (Val.vStr "x"))]) :=
  ⟨rfl, rfl, rfl⟩

/-- C2 counterexample: the record-level sync engine pushes a remote update
even while the record's `remoteChanging` flag is true — the `SyncModel`
change listener has no `remoteChanging` guard, so the claim fails for the
record-level engine. -/
theorem c2_record_engine_pushes_despite_remoteChanging :
    (⟨[("a", Val.vNum 0)], true, false⟩ : RecordState).remoteChanging = true
    ∧ (recordStep Mode.autoSync ⟨[("a", Val.vNum 0)], true, false⟩
        (LocalOp.setAttr "a" (Val.vNum 1))).snd =
      [RemoteOp.updateRec [("a", some (Val.vNum 1))]] :=
  ⟨rfl, rfl⟩

/-- C2 amended: while `_remoteChanging` is true, a local change notification
is skipped entirely by the collection-level `_updateModel` handler (no
RemoteStore write); the record-level sync engine has no such guard — its
change listener issues the merge update regardless of the flag's value. -/
theorem c2_amended_remoteChanging_skip :
    (∀ m : Member, m.remoteChanging = true → collection_updateModel m = none)
    ∧ (∀ (a : Attrs) (b so : Bool) (ch : List (String × Option Val)),
        syncModel_onLocalChange ⟨a, b, so⟩ ch =
          [RemoteOp.updateRec (model_updateModel ch)]) := by
  constructor
  · intro m hm
    simp [collection_updateModel, hm]
  · intro a b so ch
    rfl

/-- C2 witness: the amended skip applied at a concrete member with the flag
set. -/
theorem c2_amended_remoteChanging_skip_witness :
    (⟨[("a", Val.vNum 1)], some [], true⟩ : Member).remoteChanging = true
    ∧ collection_updateModel ⟨[("a", Val.vNum 1)], some [], true⟩ = none :=
  ⟨rfl, c2_amended_remoteChanging_skip.1 _ rfl⟩

/-- C3: for every remote snapshot map and local attribute map, the computed
patch maps each key present in the snapshot but absent from the local
attributes to `null`; maps each key present in both whose values differ
under JS loose value equality to the local value; and omits every key whose
value is loosely equal in both maps, so the patch contains no unchanged
key. -/
theorem c3_diff_patch_characterization (r l : Attrs) (k : String) :
    (hasKey r k = true → hasKey l k = false →
      lookupKey (computeUpdateAttributes r l) k = some Val.vNull)
    ∧ (hasKey r k = true → hasKey l k = true →
        jsEq (lookupKey l k) (lookupKey r k) = false →
        lookupKey (computeUpdateAttributes r l) k = lookupKey l k)
    ∧ (hasKey r k = true → hasKey l k = true →
        jsEq (lookupKey l k) (lookupKey r k) = true →
        hasKey (computeUpdateAttributes r l) k = false) := by
  have hmemr : hasKey r k = true → k ∈ uniqKeys (keysOf r ++ keysOf l) :=
    fun hr => (mem_uniqKeys _ _).mpr
      (List.mem_append.mpr (Or.inl (mem_keysOf_of_hasKey r k hr)))
  refine ⟨?_, ?_, ?_⟩
  · intro hr hl
    rw [lookup_computeUpdateAttributes, if_pos (hmemr hr)]
    unfold diffEntry
    rw [if_pos hl]
  · intro hr hl hne
    rw [lookup_computeUpdateAttributes, if_pos (hmemr hr)]
    unfold diffEntry
    rw [if_neg (by simp [hl]), if_pos hne]
  · intro hr hl heq
    unfold hasKey
    rw [lookup_computeUpdateAttributes, if_pos (hmemr hr)]
    unfold diffEntry
    rw [if_neg (by simp [hl]), if_neg (by simp [heq])]
    rfl

/-- C3 witness: the three clauses of the characterization applied at a
concrete snapshot and attribute map. -/
theorem c3_diff_patch_characterization_witness :
    (hasKey [("a", Val.vNum 1), ("b", Val.vNum 2), ("d", Val.vNum 5)] "a" = true
      ∧ hasKey [("b", Val.vNum 3), ("c", Val.vNum 4), ("d", Val.vNum 5)] "a" = false
      ∧ lookupKey (computeUpdateAttributes
          [("a", Val.vNum 1), ("b", Val.vNum 2), ("d", Val.vNum 5)]
          [("b", Val.vNum 3), ("c", Val.vNum 4), ("d", Val.vNum 5)]) "a" =
        some Val.vNull)
    ∧ (lookupKey (computeUpdateAttributes
          [("a", Val.vNum 1), ("b", Val.vNum 2), ("d", Val.vNum 5)]
          [("b", Val.vNum 3), ("c", Val.vNum 4), ("d", Val.vNum 5)]) "b" =
        some (Val.vNum 3))
    ∧ (hasKey (computeUpdateAttributes
          [("a", Val.vNum 1), ("b", Val.vNum 2), ("d", Val.vNum 5)]
          [("b", Val.vNum 3), ("c", Val.vNum 4), ("d", Val.vNum 5)]) "d" =
        false) :=
  ⟨⟨by decide, by decide,
    (c3_diff_patch_characterization _ _ "a").1 (by decide) (by decide)⟩,
   by
     have h := (c3_diff_patch_characterization
       [("a", Val.vNum 1), ("b", Val.vNum 2), ("d", Val.vNum 5)]
       [("b", Val.vNum 3), ("c", Val.vNum 4), ("d", Val.vNum 5)] "b").2.1
       (by decide) (by decide) (by decide)
     simpa using h,
   (c3_diff_patch_characterization _ _ "d").2.2 (by decide) (by decide)
     (by decide)⟩

/-- C4 counterexample: applying a snapshot without an `id` key to a new
record silently assigns the node key as the record's identifier, and the
immediately recomputed diff then contains that identifier — a non-empty
patch, refuting the round-trip claim as stated. -/
theorem c4_roundtrip_fails_without_id :
    computeUpdateAttributes [("name", Val.vStr "a")]
        (setLocalFromSnap [] "abc" (RVal.obj [("name", Val.vStr "a")])) =
      [("id", Val.vStr "abc")]
    ∧ [("id", Val.vStr "abc")] ≠ ([] : Attrs) :=
  ⟨rfl, by decide⟩

/-- C4 amended: for any local attribute map `A` (duplicate-free keys) that
contains the identifier key, applying `A` as a remote snapshot and then
immediately computing the diff between `A` and the record's resulting local
attributes yields an empty patch, so no remote write would be issued. -/
theorem c4_amended_roundtrip_with_id (attrs : Attrs) (snapName : String)
    (A : Attrs) (hnd : (keysOf A).Nodup) (hid : hasKey A "id" = true) :
    computeUpdateAttributes A (setLocalFromSnap attrs snapName (RVal.obj A)) =
      [] := by
  have hlook : ∀ k,
      lookupKey (setLocalFromSnap attrs snapName (RVal.obj A)) k =
        lookupKey A k := by
    intro k
    unfold setLocalFromSnap
    rw [lookupKey_bbSetObj A hnd]
    rcases hA : lookupKey A k with _ | v
    · have hkA : k ∉ keysOf A := (lookupKey_eq_none_iff A k).mp hA
      have hkid : k ≠ "id" := by
        intro he
        rw [he] at hA
        simp [hasKey, hA] at hid
      have hbase :
          lookupKey (setIdFromSnap (unsetAbsentKeys attrs A) snapName) k =
            none := by
        unfold setIdFromSnap
        by_cases hnew : isNewAttrs (unsetAbsentKeys attrs A) = true
        · rw [if_pos hnew, lookupKey_setKey_other _ _ _ _ hkid,
            lookupKey_unsetAbsentKeys, if_neg hkA]
        · rw [if_neg hnew, lookupKey_unsetAbsentKeys, if_neg hkA]
      simp [Option.orElse, hbase]
    · rfl
  apply computeUpdateAttributes_eq_nil
  intro k hk
  have hmem := (mem_uniqKeys _ k).mp hk
  have hsome : hasKey (setLocalFromSnap attrs snapName (RVal.obj A)) k =
      true := by
    rcases List.mem_append.mp hmem with h | h
    · unfold hasKey
      rw [hlook k]
      exact lookupKey_isSome_of_mem A k h
    · exact hasKey_true_of_mem _ k h
  unfold diffEntry
  rw [if_neg (by simp [hsome]), hlook k, if_neg (by simp [jsEq_refl])]

/-- C5 counterexample: the priority key appears in the union of snapshot and
local keys (with equal values on both sides), yet the local change of `val`
is pushed through the merge-update path, not the full-replace-with-priority
path — the code tests the computed patch, not the union, so the claim as
stated fails. -/
theorem c5_priority_in_union_merge_push :
    (".priority" ∈ uniqKeys
      (keysOf [("id", Val.vStr "x"), ("val", Val.vNum 1),
          (".priority", Val.vNum 5)] ++
        keysOf [("id", Val.vStr "x"), ("val", Val.vNum 2),
          (".priority", Val.vNum 5)]))
    ∧ collection_updateModel
        ⟨[("id", Val.vStr "x"), ("val", Val.vNum 2),
            (".priority", Val.vNum 5)],
          some [("id", Val.vStr "x"), ("val", Val.vNum 1),
            (".priority", Val.vNum 5)],
          false⟩ =
      some (RemoteOp.updateChild "x" [("val", Val.vNum 2)]) := by
  decide

/-- C5 amended: whenever the priority key appears in the computed patch
(its value differs between snapshot and local attributes or it was removed
locally), the push goes through the full-replace-with-priority path, with
the priority extracted and deleted from the local value map; a merge-update
patch never carries the priority key; and for local attributes
`val: 1, .priority: 5` against remote snapshot `val: 1`, the diff flags the
priority key for full-replace handling. -/
theorem c5_amended_priority_full_replace :
    (∀ (m : Member) (cid : String) (patch : Attrs),
        collection_updateModel m = some (RemoteOp.updateChild cid patch) →
        hasKey patch ".priority" = false)
    ∧ (∀ m : Member, m.remoteChanging = false →
        hasKey (computeUpdateAttributes (m.remoteAttributes.getD []) m.attrs)
            ".priority" = true →
        collection_updateModel m =
          some (RemoteOp.setWithPriorityChild
            (childKey (lookupKey m.attrs "id"))
            (removeKey m.attrs ".priority")
            (lookupKey m.attrs ".priority")))
    ∧ hasKey (computeUpdateAttributes [("val", Val.vNum 1)]
        [("val", Val.vNum 1), (".priority", Val.vNum 5)]) ".priority" =
      true := by
  refine ⟨?_, ?_, by decide⟩
  · intro m cid patch h
    simp only [collection_updateModel] at h
    split_ifs at h with h1 h2 h3
    all_goals try exact RemoteOp.noConfusion (Option.some.inj h)
    all_goals
      have heq := Option.some.inj h
      injection heq with hcid hpatch
      rw [← hpatch]
      exact Bool.eq_false_iff.mpr h3
  · intro m h1 h2
    have hne :
        (computeUpdateAttributes (m.remoteAttributes.getD [])
          m.attrs).isEmpty = false := by
      rcases hp : computeUpdateAttributes (m.remoteAttributes.getD [])
          m.attrs with _ | ⟨kv, rest⟩
      · rw [hp] at h2
        simp [hasKey, lookupKey] at h2
      · simp
    simp only [collection_updateModel]
    rw [if_neg (by simp [h1]), if_neg (by simp [hne]), if_pos h2]

/-- C5 witness: the amended full-replace path at a concrete member whose
priority changed locally. -/
theorem c5_amended_priority_full_replace_witness :
    (⟨[("id", Val.vStr "x"), ("val", Val.vNum 1), (".priority", Val.vNum 5)],
        some [("id", Val.vStr "x"), ("val", Val.vNum 1)],
        false⟩ : Member).remoteChanging = false
    ∧ hasKey (computeUpdateAttributes [("id", Val.vStr "x"), ("val", Val.vNum 1)]
        [("id", Val.vStr "x"), ("val", Val.vNum 1), (".priority", Val.vNum 5)])
        ".priority" = true
    ∧ collection_updateModel
        ⟨[("id", Val.vStr "x"), ("val", Val.vNum 1), (".priority", Val.vNum 5)],
          some [("id", Val.vStr "x"), ("val", Val.vNum 1)],
          false⟩ =
      some (RemoteOp.setWithPriorityChild "x"
        [("id", Val.vStr "x"), ("val", Val.vNum 1)] (some (Val.vNum 5))) := by
  refine ⟨rfl, by decide, ?_⟩
  have h := c5_amended_priority_full_replace.2.1
    ⟨[("id", Val.vStr "x"), ("val", Val.vNum 1), (".priority", Val.vNum 5)],
      some [("id", Val.vStr "x"), ("val", Val.vNum 1)], false⟩
    rfl (by decide)
  simpa using h

/-- C4 witness: the amended round-trip at a concrete record and snapshot
containing an identifier. -/
theorem c4_amended_roundtrip_with_id_witness :
    (keysOf [("id", Val.vStr "q"), ("name", Val.vStr "a")]).Nodup
    ∧ hasKey [("id", Val.vStr "q"), ("name", Val.vStr "a")] "id" = true
    ∧ computeUpdateAttributes [("id", Val.vStr "q"), ("name", Val.vStr "a")]
        (setLocalFromSnap [("x", Val.vNum 9)] "abc"
          (RVal.obj [("id", Val.vStr "q"), ("name", Val.vStr "a")])) = [] :=
  ⟨by decide, by decide,
    c4_amended_roundtrip_with_id [("x", Val.vNum 9)] "abc"
      [("id", Val.vStr "q"), ("name", Val.vStr "a")] (by decide) (by decide)⟩

/-- C6 counterexample: two successive remote value applications on the same
continuous-mode record each trigger a `sync` notification — the notification
is emitted on every application, not exactly once. -/
theorem c6_sync_fires_on_every_value :
    (onValueEvent [] ⟨[], false, false⟩ "k"
      (RVal.obj [("a", Val.vNum 1)])).snd = [Notif.sync]
    ∧ (onValueEvent [] ⟨[], false, false⟩ "k"
        (RVal.obj [("a", Val.vNum 1)])).fst.syncedOnce = true
    ∧ (onValueEvent []
        (onValueEvent [] ⟨[], false, false⟩ "k"
          (RVal.obj [("a", Val.vNum 1)])).fst
        "k" (RVal.obj [("a", Val.vNum 2)])).snd = [Notif.sync] :=
  ⟨rfl, rfl, rfl⟩

/-- C6 amended: every application of a remote value emits exactly one `sync`
notification (hence at least one after the first, rather than exactly one
overall); declared default attributes take effect only at the first
application, and they never overwrite an attribute value present after the
remote value was applied. -/
theorem c6_amended_sync_and_defaults (defaults : Attrs) (s : RecordState)
    (snapName : String) (v : RVal)
    (hnd : (keysOf (setLocalFromSnap s.attrs snapName v)).Nodup) :
    (onValueEvent defaults s snapName v).snd = [Notif.sync]
    ∧ (s.syncedOnce = true →
        (onValueEvent defaults s snapName v).fst.attrs =
          setLocalFromSnap s.attrs snapName v)
    ∧ (∀ k, hasKey (setLocalFromSnap s.attrs snapName v) k = true →
        lookupKey (onValueEvent defaults s snapName v).fst.attrs k =
          lookupKey (setLocalFromSnap s.attrs snapName v) k) := by
  refine ⟨?_, ?_, ?_⟩
  · unfold onValueEvent
    by_cases hso : s.syncedOnce = true <;> simp [hso]
  · intro hso
    unfold onValueEvent
    simp [hso]
  · intro k hk
    unfold onValueEvent
    by_cases hso : s.syncedOnce = true
    · simp [hso]
    · simp only [Bool.not_eq_true] at hso
      simp only [hso, Bool.false_eq_true, if_false]
      rw [lookupKey_bbSetObj _
        (nodup_underscoreDefaults defaults _ hnd)]
      rw [lookupKey_underscoreDefaults defaults _ k hk]
      rcases hl : lookupKey (setLocalFromSnap s.attrs snapName v) k with _ | w
      · simp [Option.orElse, hl]
      · simp [Option.orElse, hl]

/-- C6 witness: the amended statement at a concrete record receiving its
first remote value with a declared default for another key. -/
theorem c6_amended_sync_and_defaults_witness :
    (keysOf (setLocalFromSnap [] "k" (RVal.obj [("a", Val.vNum 1)]))).Nodup
    ∧ hasKey (setLocalFromSnap [] "k" (RVal.obj [("a", Val.vNum 1)])) "a" = true
    ∧ (onValueEvent [("b", Val.vNum 7)] ⟨[], false, false⟩ "k"
        (RVal.obj [("a", Val.vNum 1)])).snd = [Notif.sync]
    ∧ lookupKey (onValueEvent [("b", Val.vNum 7)] ⟨[], false, false⟩ "k"
        (RVal.obj [("a", Val.vNum 1)])).fst.attrs "a" =
      lookupKey (setLocalFromSnap [] "k" (RVal.obj [("a", Val.vNum 1)])) "a" :=
  ⟨by decide, by decide,
    (c6_amended_sync_and_defaults [("b", Val.vNum 7)] ⟨[], false, false⟩ "k"
      (RVal.obj [("a", Val.vNum 1)]) (by decide)).1,
    (c6_amended_sync_and_defaults [("b", Val.vNum 7)] ⟨[], false, false⟩ "k"
      (RVal.obj [("a", Val.vNum 1)]) (by decide)).2.2 "a" (by decide)⟩

theorem findFirstMember_eq_none (ms : List Member) (p : Member → Bool)
    (h : ∀ mem ∈ ms, p mem = false) : findFirstMember ms p = none := by
  induction ms with
  | nil => rfl
  | cons mem rest ih =>
    rw [findFirstMember, if_neg (by simp [h mem (List.mem_cons_self _ _)])]
    exact ih (fun x hx => h x (List.mem_cons_of_mem _ hx))

/-- C7: handling a `child_changed` event whose (normalized) identifier
matches no record currently in the local collection fails loudly with the
`Could not find model` error; the error is raised before any mutation, so no
record is fabricated or added. -/
theorem c7_child_changed_unknown_id_errors (ms : List Member) (b : Bool)
    (snapName : String) (m0 : Attrs)
    (h : ∀ mem ∈ ms,
      jsEq (lookupKey mem.attrs "id")
        (lookupKey (normalizeChildModel m0 snapName) "id") = false) :
    childChanged ⟨ms, b⟩ snapName (RVal.obj m0) =
      Except.error ("Could not find model with ID " ++
        jsValToString (lookupKey (normalizeChildModel m0 snapName) "id")) := by
  have hnone := findFirstMember_eq_none ms
    (fun child => jsEq (lookupKey child.attrs "id")
      (lookupKey (normalizeChildModel m0 snapName) "id")) h
  simp only [childChanged, childChangedCore, hnone]

/-- C7 witness: a `child_changed` for id `z` on an empty collection throws. -/
theorem c7_child_changed_unknown_id_errors_witness :
    (∀ mem ∈ ([] : List Member),
      jsEq (lookupKey mem.attrs "id")
        (lookupKey (normalizeChildModel [("id", Val.vStr "z")] "z") "id") =
        false)
    ∧ childChanged ⟨[], false⟩ "z" (RVal.obj [("id", Val.vStr "z")]) =
      Except.error ("Could not find model with ID " ++
        jsValToString
          (lookupKey (normalizeChildModel [("id", Val.vStr "z")] "z") "id")) :=
  ⟨by simp,
    c7_child_changed_unknown_id_errors [] false "z" [("id", Val.vStr "z")]
      (by simp)⟩

/-- C8 counterexample: a `child_changed` whose payload is a primitive is not
handled gracefully by the collection — the strict-mode id assignment on a
primitive throws a `TypeError`, refuting the claim that both the record-level
and the collection-level applications degrade without failing. -/
theorem c8_collection_child_changed_prim_throws :
    childChanged
        ⟨[⟨[("id", Val.vStr "x"), ("a", Val.vNum 1)], none, false⟩], false⟩
        "x" (RVal.prim (Val.vNum 5)) =
      Except.error "TypeError: Cannot create property on a primitive value" :=
  rfl

/-- C8 amended: for a non-object payload, the record-level value application
skips key-diffing — every existing attribute key survives and every key other
than the (possibly newly assigned) identifier keeps its value; the
collection-level `child_changed` application, by contrast, throws a
`TypeError` instead of degrading. -/
theorem c8_amended_nonobject_payload (attrs : Attrs) (snapName : String)
    (p : Val) :
    (∀ k, hasKey attrs k = true →
      hasKey (setLocalFromSnap attrs snapName (RVal.prim p)) k = true)
    ∧ (∀ k, k ≠ "id" →
        lookupKey (setLocalFromSnap attrs snapName (RVal.prim p)) k =
          lookupKey attrs k)
    ∧ (∀ (ms : List Member) (b : Bool), ∃ e,
        childChanged ⟨ms, b⟩ snapName (RVal.prim p) = Except.error e) := by
  refine ⟨?_, ?_, ?_⟩
  · intro k hk
    unfold setLocalFromSnap setIdFromSnap
    by_cases hnew : isNewAttrs attrs = true
    · rw [if_pos hnew]
      by_cases hkid : k = "id"
      · subst hkid
        unfold hasKey
        rw [lookupKey_setKey_self]
        rfl
      · unfold hasKey
        rw [lookupKey_setKey_other _ _ _ _ hkid]
        exact hk
    · rw [if_neg hnew]
      exact hk
  · intro k hkid
    unfold setLocalFromSnap setIdFromSnap
    by_cases hnew : isNewAttrs attrs = true
    · rw [if_pos hnew, lookupKey_setKey_other _ _ _ _ hkid]
    · rw [if_neg hnew]
  · intro ms b
    cases p <;> exact ⟨_, rfl⟩

/-- C8 witness: the amended statement at a concrete record and a numeric
payload. -/
theorem c8_amended_nonobject_payload_witness :
    hasKey [("id", Val.vStr "x"), ("a", Val.vNum 1)] "a" = true
    ∧ hasKey (setLocalFromSnap [("id", Val.vStr "x"), ("a", Val.vNum 1)] "x"
        (RVal.prim (Val.vNum 5))) "a" = true
    ∧ lookupKey (setLocalFromSnap [("id", Val.vStr "x"), ("a", Val.vNum 1)]
        "x" (RVal.prim (Val.vNum 5))) "a" =
      lookupKey [("id", Val.vStr "x"), ("a", Val.vNum 1)] "a"
    ∧ ∃ e, childChanged ⟨[], false⟩ "x" (RVal.prim (Val.vNum 5)) =
        Except.error e :=
  ⟨by decide,
    (c8_amended_nonobject_payload [("id", Val.vStr "x"), ("a", Val.vNum 1)]
      "x" (Val.vNum 5)).1 "a" (by decide),
    (c8_amended_nonobject_payload [("id", Val.vStr "x"), ("a", Val.vNum 1)]
      "x" (Val.vNum 5)).2.1 "a" (by decide),
    (c8_amended_nonobject_payload [("id", Val.vStr "x"), ("a", Val.vNum 1)]
      "x" (Val.vNum 5)).2.2 [] false⟩

/-- C9: a one-shot-mode record issues no RemoteStore write at all under any
sequence of local attribute mutations — the `OnceModel` change listener only
re-applies the tombstone patch locally and silently. -/
theorem c9_once_mode_no_remote_writes (s : RecordState) (ops : List LocalOp) :
    (recordRun Mode.once s ops).snd = [] := by
  induction ops generalizing s with
  | nil => rfl
  | cons op rest ih =>
    have hstep : (recordStep Mode.once s op).snd = [] := by
      simp only [recordStep]
      split <;> rfl
    simp only [recordRun, hstep, ih, List.nil_append]

/-- C10: the `child_changed` handler neither reads nor changes the
collection's `_suppressEvent` flag — its outcome on the members and the
notifications it triggers are identical whatever the flag's value, and the
flag survives unchanged; in particular a member's `change` notification still
fires on a `child_changed` echo while the flag is set. -/
theorem c10_child_changed_ignores_suppress_flag :
    (∀ (c : FBCollection) (snapName : String) (v : RVal) (b : Bool),
      childChanged ⟨c.models, b⟩ snapName v =
        Except.map (fun p => (⟨p.fst.models, b⟩, p.snd))
          (childChanged c snapName v))
    ∧ childChanged
        ⟨[⟨[("id", Val.vStr "x"), ("name", Val.vStr "a")],
            some [("id", Val.vStr "x"), ("name", Val.vStr "a")], false⟩],
          true⟩
        "x" (RVal.obj [("id", Val.vStr "x"), ("name", Val.vStr "b")]) =
      Except.ok
        (⟨[⟨[("id", Val.vStr "x"), ("name", Val.vStr "b")],
            some [("id", Val.vStr "x"), ("name", Val.vStr "b")], false⟩],
           true⟩,
         [Notif.change "name"]) := by
  constructor
  · intro c snapName v b
    simp only [childChanged]
    cases h : childChangedCore c.models snapName v <;> simp [h, Except.map]
  · rfl

end Backfire
